import Mathlib

/-!
Verification of the DOE-PB gazette scraper core
(`automation/doe_pb_core.py`) against its specification.

The Python source is shallowly embedded below.  External collaborators are
modelled as explicit inputs:

* the browser/rendering session (selenium) becomes lists of anchor `href`s,
  iframe/embed `src`s, the rendered page source, and the current URL;
* the HTTP layer (`urllib.request.urlopen`) becomes an oracle
  `fetch : String → Option (String × List Nat)` giving the content type and
  body bytes of a response, `none` standing for any raised exception;
* the PDF decoder (`pdfplumber`) becomes the list of per-page extracted
  texts, so `_extract_records` is modelled on the decoded pages.

Python regular expressions are embedded via a small backtracking engine
(`Rx` / `remainders`) whose alternative ordering mirrors Python `re`:
ordered alternation, greedy quantifiers try longest first, lazy quantifiers
shortest first, sequencing backtracks depth-first, and `search` scans start
positions left to right.  Character case folding and diacritic stripping
are modelled by explicit tables covering the Latin-1 letters used by the
program; characters outside the tables are left unchanged.
-/

namespace DoePB

/-! ### Character tables: Python `str.lower`, `str.upper`, NFD accent stripping -/

/-- Python `str.lower` on one character, for ASCII and Latin-1 letters. -/
def pyLowerChar (c : Char) : Char :=
  match c with
  | 'À' => 'à' | 'Á' => 'á' | 'Â' => 'â' | 'Ã' => 'ã' | 'Ä' => 'ä'
  | 'È' => 'è' | 'É' => 'é' | 'Ê' => 'ê' | 'Ë' => 'ë'
  | 'Ì' => 'ì' | 'Í' => 'í' | 'Î' => 'î' | 'Ï' => 'ï'
  | 'Ò' => 'ò' | 'Ó' => 'ó' | 'Ô' => 'ô' | 'Õ' => 'õ' | 'Ö' => 'ö'
  | 'Ù' => 'ù' | 'Ú' => 'ú' | 'Û' => 'û' | 'Ü' => 'ü'
  | 'Ç' => 'ç' | 'Ñ' => 'ñ' | 'Ý' => 'ý'
  | _ => c.toLower

/-- Python `str.upper` on one character, for ASCII and Latin-1 letters. -/
def pyUpperChar (c : Char) : Char :=
  match c with
  | 'à' => 'À' | 'á' => 'Á' | 'â' => 'Â' | 'ã' => 'Ã' | 'ä' => 'Ä'
  | 'è' => 'È' | 'é' => 'É' | 'ê' => 'Ê' | 'ë' => 'Ë'
  | 'ì' => 'Ì' | 'í' => 'Í' | 'î' => 'Î' | 'ï' => 'Ï'
  | 'ò' => 'Ò' | 'ó' => 'Ó' | 'ô' => 'Ô' | 'õ' => 'Õ' | 'ö' => 'Ö'
  | 'ù' => 'Ù' | 'ú' => 'Ú' | 'û' => 'Û' | 'ü' => 'Ü'
  | 'ç' => 'Ç' | 'ñ' => 'Ñ' | 'ý' => 'Ý'
  | _ => c.toUpper

/-- NFD decomposition followed by removal of combining marks, restricted to
one lower-case Latin-1 character (the composed accented letter maps to its
base letter). -/
def deaccentChar (c : Char) : Char :=
  match c with
  | 'à' => 'a' | 'á' => 'a' | 'â' => 'a' | 'ã' => 'a' | 'ä' => 'a'
  | 'è' => 'e' | 'é' => 'e' | 'ê' => 'e' | 'ë' => 'e'
  | 'ì' => 'i' | 'í' => 'i' | 'î' => 'i' | 'ï' => 'i'
  | 'ò' => 'o' | 'ó' => 'o' | 'ô' => 'o' | 'õ' => 'o' | 'ö' => 'o'
  | 'ù' => 'u' | 'ú' => 'u' | 'û' => 'u' | 'ü' => 'u'
  | 'ç' => 'c' | 'ñ' => 'n' | 'ý' => 'y'
  | _ => c

/-- `nrm` from the source: lower-case, then strip diacritical marks. -/
def nrmChar (c : Char) : Char := deaccentChar (pyLowerChar c)

/-- Python `str.lower` on a string. -/
def pyLower (s : String) : String := String.mk (s.data.map pyLowerChar)

/-- `nrm(s)` (doe_pb_core.py line 16): case/diacritic-insensitive key. -/
def nrm (s : String) : String := String.mk (s.data.map nrmChar)

/-- Python `\s` (whitespace class), restricted to the ASCII whitespace
characters that occur in the modelled texts. -/
def isPySpace (c : Char) : Bool :=
  c = ' ' || c = '\t' || c = '\n' || c = '\r' || c = '\x0b' || c = '\x0c'

/-! ### List-of-characters helpers: substring tests, strip, collapse -/

/-- `p` is a leading segment of `s` (by `=` on characters). -/
def pfxCL : List Char → List Char → Bool
  | [], _ => true
  | _ :: _, [] => false
  | a :: as, b :: bs => a = b && pfxCL as bs

/-- `p` occurs as a contiguous segment of `s` (Python `p in s`). -/
def subCL (p : List Char) : List Char → Bool
  | [] => pfxCL p []
  | s@(_ :: t) => pfxCL p s || subCL p t

/-- Python `p in s` on strings. -/
def containsStr (s p : String) : Bool := subCL p.data s.data

/-- Python `s.strip(cs)`: drop leading and trailing characters in `cs`. -/
def stripEndChars (cs : List Char) : List Char → List Char
  | [] => []
  | c :: t =>
      let r := stripEndChars cs t
      if r = [] && cs.contains c then [] else c :: r

/-- Python `s.strip(cs)` on a character list. -/
def pyStripChars (cs : List Char) (s : List Char) : List Char :=
  stripEndChars cs (s.dropWhile (fun c => cs.contains c))

/-- Trailing-whitespace removal (for no-argument `str.strip`). -/
def stripEndWs : List Char → List Char
  | [] => []
  | c :: t =>
      let r := stripEndWs t
      if r = [] && isPySpace c then [] else c :: r

/-- Python no-argument `s.strip()`: drop leading and trailing whitespace. -/
def pyStripWsL (s : List Char) : List Char :=
  stripEndWs (s.dropWhile isPySpace)

/-- Python no-argument `s.strip()` on strings. -/
def pyStripWs (s : String) : String := String.mk (pyStripWsL s.data)

/-- `re.sub(r"\s+", " ", ·)`: each maximal whitespace run becomes one
space.  The flag records whether the previous character was whitespace. -/
def squashAux : Bool → List Char → List Char
  | _, [] => []
  | prev, c :: t =>
      if isPySpace c then
        if prev then squashAux true t else ' ' :: squashAux true t
      else c :: squashAux false t

/-- `re.sub(r"\s+", " ", bloco).strip()` (doe_pb_core.py line 148). -/
def collapseL (l : List Char) : List Char :=
  pyStripWsL (squashAux false l)

/-- String form of `collapseL`. -/
def collapse (s : String) : String := String.mk (collapseL s.data)

/-! ### A small backtracking regex engine with Python `re` semantics

Quantified subterms of the embedded patterns only ever range over character
classes, so greedy/lazy repetition is provided over classes.  `remainders r s`
lists the possible rests of `s` after `r` matched a leading segment, in
Python's backtracking priority order: ordered alternation, greedy
longest-first, lazy shortest-first, depth-first sequencing. -/

inductive Rx where
  | eps : Rx
  | chr : (Char → Bool) → Rx
  | seq : Rx → Rx → Rx
  | alt : Rx → Rx → Rx
  | opt : Rx → Rx
  | starC : (Char → Bool) → Rx
  | plusC : (Char → Bool) → Rx
  | repC : (Char → Bool) → Nat → Rx
  | lazyC : (Char → Bool) → Nat → Rx
  | eos : Rx

/-- Length of the maximal leading run of characters satisfying `p`. -/
def classRun (p : Char → Bool) : List Char → Nat
  | [] => 0
  | c :: t => if p c then classRun p t + 1 else 0

/-- All ways `r` can match a leading segment of `s`, as the remaining
suffixes, in backtracking priority order. -/
def remainders : Rx → List Char → List (List Char)
  | .eps, s => [s]
  | .chr p, s =>
      match s with
      | [] => []
      | c :: t => if p c then [t] else []
  | .seq a b, s => (remainders a s).flatMap (remainders b)
  | .alt a b, s => remainders a s ++ remainders b s
  | .opt a, s => remainders a s ++ [s]
  | .starC p, s =>
      let n := classRun p s
      (List.range (n + 1)).reverse.map (fun j => s.drop j)
  | .plusC p, s =>
      let n := classRun p s
      if n = 0 then [] else (List.range n).reverse.map (fun j => s.drop (j + 1))
  | .repC p k, s =>
      let n := classRun p s
      if n < k then [] else (List.range' k (n - k + 1)).reverse.map (fun j => s.drop j)
  | .lazyC p k, s =>
      let n := classRun p s
      if n < k then [] else (List.range' k (n - k + 1)).map (fun j => s.drop j)
  | .eos, s => match s with | [] => [[]] | _ :: _ => []

/-- Try to match `pre`, a capture group `cap`, and `post` at the start of
`s`; return the captured characters and the rest of the input after the
whole match, for the first configuration in backtracking order. -/
def matchCapRem (pre cap post : Rx) (s : List Char) : Option (List Char × List Char) :=
  (remainders pre s).findSome? fun r1 =>
    (remainders cap r1).findSome? fun r2 =>
      (remainders post r2).head?.map fun r3 =>
        (r1.take (r1.length - r2.length), r3)

/-- Python `pattern.search(s).group(1)`: scan start positions left to
right, return the capture of the first match. -/
def searchCap (pre cap post : Rx) : List Char → Option (List Char)
  | [] => (matchCapRem pre cap post []).map (fun q => q.1)
  | s@(_ :: t) =>
      match matchCapRem pre cap post s with
      | some q => some q.1
      | none => searchCap pre cap post t

/-- A fixed-length pattern given as one predicate per character. -/
def predsMatch : List (Char → Bool) → List Char → Bool
  | [], _ => true
  | _ :: _, [] => false
  | p :: ps, c :: cs => p c && predsMatch ps cs

/-- Search for the leftmost match of an ordered alternation of fixed-length
patterns, returning the match's start and end index. -/
def searchAltsAux (alts : List (List (Char → Bool))) (i : Nat) : List Char → Option (Nat × Nat)
  | [] => none
  | s@(_ :: t) =>
      match alts.findSome? (fun ps => if predsMatch ps s then some (i, i + ps.length) else none) with
      | some r => some r
      | none => searchAltsAux alts (i + 1) t

/-! ### The compiled pattern constants of doe_pb_core.py -/

/-- Case folding for `re.IGNORECASE` literal characters. -/
def ciIs (a : Char) (c : Char) : Bool := pyLowerChar c = pyLowerChar a

/-- A case-insensitive literal string as a pattern. -/
def litCI (s : String) : Rx :=
  s.data.foldr (fun c r => Rx.seq (Rx.chr (ciIs c)) r) Rx.eps

/-- A case-insensitive character class given by its members. -/
def clsCI (s : String) (c : Char) : Bool := s.data.any (fun a => ciIs a c)

/-- A case-sensitive single character. -/
def cs1 (a : Char) (c : Char) : Bool := c = a

/-- The class `[A-ZÁÉÍÓÚÂÊÔÃÕÇ]` without `re.I` (RE_NOME_CAIXA). -/
def upperNameChar (c : Char) : Bool :=
  c.isUpper || "ÁÉÍÓÚÂÊÔÃÕÇ".data.contains c

/-- The class `[A-ZÁÉÍÓÚÂÊÔÃÕÇ]` under `re.I`. -/
def upperNameCI (c : Char) : Bool :=
  clsCI "ABCDEFGHIJKLMNOPQRSTUVWXYZÁÉÍÓÚÂÊÔÃÕÇ" c

/-- The class `[A-ZÁÉÍÓÚÂÊÔÃÕÇ\s\-.]` under `re.I`. -/
def nameTailCI (c : Char) : Bool :=
  upperNameCI c || isPySpace c || c = '-' || c = '.'

def wsPlus : Rx := Rx.plusC isPySpace
def wsStar : Rx := Rx.starC isPySpace

/-- `(?:aposentadori[ao]|pens[aã]o)` of RE_NOME_POS_FRASE. -/
def rxTipoWord : Rx :=
  Rx.alt (Rx.seq (litCI "aposentadori") (Rx.chr (clsCI "ao")))
         (Rx.seq (litCI "pens") (Rx.seq (Rx.chr (clsCI "aã")) (Rx.chr (ciIs 'o'))))

/-- `(?:vital[ií]cia|tempor[áa]ria)` of RE_NOME_POS_FRASE. -/
def rxQualifier : Rx :=
  Rx.alt (Rx.seq (litCI "vital") (Rx.seq (Rx.chr (clsCI "ií")) (litCI "cia")))
         (Rx.seq (litCI "tempor") (Rx.seq (Rx.chr (clsCI "áa")) (litCI "ria")))

/-- `(?:,?\s*por[^,.;]+)` of RE_NOME_POS_FRASE. -/
def rxPorClause : Rx :=
  Rx.seq (Rx.opt (Rx.chr (cs1 ',')))
    (Rx.seq wsStar
      (Rx.seq (litCI "por") (Rx.plusC (fun c => !(c = ',' || c = '.' || c = ';')))))

/-- RE_NOME_POS_FRASE (doe_pb_core.py lines 25-27), part before the capture:
`(?i)conceder\s+(?:aposentadori[ao]|pens[aã]o)\s+(?:vital[ií]cia|tempor[áa]ria)?\s*(?:,?\s*por[^,.;]+)?\s*a[oà]?\s+`. -/
def rxPosFrasePre : Rx :=
  Rx.seq (litCI "conceder")
    (Rx.seq wsPlus
      (Rx.seq rxTipoWord
        (Rx.seq wsPlus
          (Rx.seq (Rx.opt rxQualifier)
            (Rx.seq wsStar
              (Rx.seq (Rx.opt rxPorClause)
                (Rx.seq wsStar
                  (Rx.seq (Rx.chr (ciIs 'a'))
                    (Rx.seq (Rx.opt (Rx.chr (clsCI "oà"))) wsPlus)))))))))

/-- The capture `([A-ZÁÉÍÓÚÂÊÔÃÕÇ][A-ZÁÉÍÓÚÂÊÔÃÕÇ\s\-.]{6,}?)` (lazy). -/
def rxNameCapLazy : Rx := Rx.seq (Rx.chr upperNameCI) (Rx.lazyC nameTailCI 6)

/-- The clause terminator `(?:,|\.|;|$)`. -/
def rxClauseEnd : Rx :=
  Rx.alt (Rx.chr (cs1 ','))
    (Rx.alt (Rx.chr (cs1 '.')) (Rx.alt (Rx.chr (cs1 ';')) Rx.eos))

/-- `RE_NOME_POS_FRASE.search(s)` returning `group(1)`. -/
def searchPosFrase (s : List Char) : Option (List Char) :=
  searchCap rxPosFrasePre rxNameCapLazy rxClauseEnd s

/-- `(?:servidor(?:a)?|benefici[áa]ri[ao]|pensionist[ao]|requerente)` of
RE_NOME_SERVIDOR. -/
def rxRole : Rx :=
  Rx.alt (Rx.seq (litCI "servidor") (Rx.opt (Rx.chr (ciIs 'a'))))
    (Rx.alt (Rx.seq (litCI "benefici")
              (Rx.seq (Rx.chr (clsCI "áa")) (Rx.seq (litCI "ri") (Rx.chr (clsCI "ao")))))
      (Rx.alt (Rx.seq (litCI "pensionist") (Rx.chr (clsCI "ao")))
        (litCI "requerente")))

/-- The greedy capture `([A-ZÁÉÍÓÚÂÊÔÃÕÇ][A-ZÁÉÍÓÚÂÊÔÃÕÇ\s\-.]{6,})`. -/
def rxNameCapGreedy : Rx := Rx.seq (Rx.chr upperNameCI) (Rx.repC nameTailCI 6)

/-- `RE_NOME_SERVIDOR.search(s)` (doe_pb_core.py lines 29-31) returning
`group(1)`. -/
def searchServidor (s : List Char) : Option (List Char) :=
  searchCap (Rx.seq rxRole wsPlus) rxNameCapGreedy Rx.eps s

/-- The class `[A-Z0-9./\-]` under `re.I`. -/
def matCapChar (c : Char) : Bool :=
  c.isUpper || c.isLower || c.isDigit || c = '.' || c = '/' || c = '-'

/-- `(?:\s*n[ºo°\.\-:]*)?\s*[:\-]?\s*`, shared tail of RE_MATRICULA and
RE_PROCESSO between the label and the capture. -/
def rxLabelTail : Rx :=
  Rx.seq (Rx.opt (Rx.seq wsStar (Rx.seq (Rx.chr (ciIs 'n')) (Rx.starC (clsCI "ºo°.-:")))))
    (Rx.seq wsStar (Rx.seq (Rx.opt (Rx.chr (fun c => c = ':' || c = '-'))) wsStar))

/-- `RE_MATRICULA.search(s)` (doe_pb_core.py line 21) returning `group(1)`:
`(?i)matricul[ao]?(?:\s*n[ºo°\.\-:]*)?\s*[:\-]?\s*([A-Z0-9./\-]+)`. -/
def searchMatricula (s : List Char) : Option (List Char) :=
  searchCap (Rx.seq (litCI "matricul") (Rx.seq (Rx.opt (Rx.chr (clsCI "ao"))) rxLabelTail))
    (Rx.repC matCapChar 1) Rx.eps s

/-- `RE_PROCESSO.search(s)` (doe_pb_core.py line 22) returning `group(1)`. -/
def searchProcesso (s : List Char) : Option (List Char) :=
  searchCap (Rx.seq (litCI "processo") rxLabelTail) (Rx.repC matCapChar 1) Rx.eps s

/-- One fixed-length alternative as per-character predicates. -/
def predsOfCI (s : String) : List (Char → Bool) := s.data.map ciIs

/-- The field-keyword pattern of doe_pb_core.py line 170:
`(?i)matricul|processo|benefici[áa]ri[ao]|pensionist[ao]`. -/
def kmAlts : List (List (Char → Bool)) :=
  [ predsOfCI "matricul",
    predsOfCI "processo",
    predsOfCI "benefici" ++ [clsCI "áa"] ++ predsOfCI "ri" ++ [clsCI "ao"],
    predsOfCI "pensionist" ++ [clsCI "ao"] ]

/-- Leftmost match of the field-keyword pattern, as (start, end). -/
def kmSearch (s : List Char) : Option (Nat × Nat) := searchAltsAux kmAlts 0 s

/-! ### `RE_NOME_CAIXA.findall` via maximal-run tokenization

`\b([A-ZÁÉÍÓÚÂÊÔÃÕÇ]{2,}(?:\s+[A-ZÁÉÍÓÚÂÊÔÃÕÇ]{2,}){1,})\b` matches exactly
the maximal sequences of two or more maximal word-character runs that each
consist entirely of class characters and have length at least two, separated
by purely-whitespace gaps: the word boundaries pin every matched word to a
full maximal run, and the `\s+` separators must span the whole gap between
two runs.  `findall` returns the non-overlapping matches left to right. -/

/-- Python `\w` (word character), for ASCII and Latin-1 letters. -/
def isWordChar (c : Char) : Bool :=
  c.isAlphanum || c = '_' ||
    "àáâãäèéêëìíîïòóôõöùúûüçñýÀÁÂÃÄÈÉÊËÌÍÎÏÒÓÔÕÖÙÚÛÜÇÑÝ".data.contains c

/-- Split into maximal runs, tagged `true` for word-character runs. -/
def tokenizeAux (curWord : Bool) (acc : List Char) : List Char → List (Bool × List Char)
  | [] => if acc = [] then [] else [(curWord, acc.reverse)]
  | c :: t =>
      if isWordChar c = curWord then tokenizeAux curWord (c :: acc) t
      else if acc = [] then tokenizeAux (isWordChar c) [c] t
      else (curWord, acc.reverse) :: tokenizeAux (isWordChar c) [c] t

def tokenize (l : List Char) : List (Bool × List Char) := tokenizeAux false [] l

/-- A run usable as one word of a RE_NOME_CAIXA match. -/
def allUpper2 (w : List Char) : Bool := decide (2 ≤ w.length) && w.all upperNameChar

/-- A separator gap acceptable to `\s+`. -/
def allWsRun (g : List Char) : Bool := decide (1 ≤ g.length) && g.all isPySpace

/-- Greedily extend a match with further (gap, word) pairs; returns the
consumed characters and the remaining runs. -/
def extendSeq : List (Bool × List Char) → List Char × List (Bool × List Char)
  | (false, g) :: (true, w) :: rest =>
      if allWsRun g && allUpper2 w then
        let p := extendSeq rest
        (g ++ w ++ p.1, p.2)
      else ([], (false, g) :: (true, w) :: rest)
  | rs => ([], rs)

/-- Scan the runs for non-overlapping matches (fuel = number of runs). -/
def caixaScanF : Nat → List (Bool × List Char) → List (List Char)
  | 0, _ => []
  | _ + 1, [] => []
  | f + 1, (true, w) :: rest =>
      if allUpper2 w then
        let p := extendSeq rest
        if p.1 = [] then caixaScanF f rest else (w ++ p.1) :: caixaScanF f p.2
      else caixaScanF f rest
  | f + 1, (false, _) :: rest => caixaScanF f rest

/-- `RE_NOME_CAIXA.findall(s)` (doe_pb_core.py line 20). -/
def caixaFindall (s : List Char) : List (List Char) :=
  let rs := tokenize s
  caixaScanF rs.length rs

/-- Python `s.split()`: split on whitespace runs, dropping empty pieces. -/
def wsSplitAux (acc : List Char) : List Char → List (List Char)
  | [] => if acc = [] then [] else [acc.reverse]
  | c :: t =>
      if isPySpace c then
        if acc = [] then wsSplitAux [] t else acc.reverse :: wsSplitAux [] t
      else wsSplitAux (c :: acc) t

def wsSplit (l : List Char) : List (List Char) := wsSplitAux [] l

/-- The BAD_TOKENS stoplist (doe_pb_core.py lines 33-34). -/
def BAD_TOKENS : List String :=
  ["APOSENTADORIA", "PENSÃO", "PENSAO", "PORTARIA", "GABINETE", "PRESIDÊNCIA",
   "PRESIDENCIA", "ESTADO", "PARAÍBA", "PARAIBA", "DO", "DA", "DE", "E", "O", "A",
   "DIÁRIO", "OFICIAL", "GOVERNO", "PBPREV", "SECRETARIA", "RESOLVE", "CONCEDER",
   "VOLUNTÁRIA", "COMPULSÓRIA", "COMPULSORIA"]

/-- `re.search(r"\b[A-ZÁÉÍÓÚÂÊÔÃÕÇ]{2,}\s+[A-ZÁÉÍÓÚÂÊÔÃÕÇ]{2,}\b", x)`
(the secondary sort key of doe_pb_core.py line 182), decided on runs: some
two adjacent all-class runs separated by a whitespace gap. -/
def hasUpperPairRuns : List (Bool × List Char) → Bool
  | [] => false
  | (true, w1) :: (false, g) :: (true, w2) :: rest =>
      (allUpper2 w1 && allWsRun g && allUpper2 w2) || hasUpperPairRuns ((true, w2) :: rest)
  | _ :: rest => hasUpperPairRuns rest

def hasUpperPair (x : List Char) : Bool := hasUpperPairRuns (tokenize x)

/-- Python's sort key ordering `(-len(x), not bool(pair-search))`. -/
def candKeyLe (a b : List Char) : Bool :=
  decide (b.length < a.length) ||
    (decide (a.length = b.length) && (hasUpperPair a || !hasUpperPair b))

/-- Stable insertion into a sorted list (equal keys keep insertion order). -/
def insSorted (le : List Char → List Char → Bool) (x : List Char) :
    List (List Char) → List (List Char)
  | [] => [x]
  | y :: ys => if le y x then y :: insSorted le x ys else x :: y :: ys

/-- Stable sort, as Python `list.sort` (ascending, stable). -/
def stableSortBy (le : List Char → List Char → Bool) (l : List (List Char)) :
    List (List Char) :=
  l.foldl (fun acc x => insSorted le x acc) []

/-! ### The record extractor `_extract_records` -/

/-- The window around the first field keyword (doe_pb_core.py lines 169-173).
`max(0, start-120)` is Nat truncated subtraction. -/
def windowOf (bflat : List Char) : List Char :=
  match kmSearch bflat with
  | none => bflat
  | some q =>
      let s := q.1 - 120
      let e := min bflat.length (q.2 + 120)
      (bflat.drop s).take (e - s)

/-- The strip set of `nome` (`.strip(" .;-:,")`). -/
def nomeStripSet : List Char := [' ', '.', ';', '-', ':', ',']

/-- The strip set of `matricula`/`processo` (`.strip(".,; ")`). -/
def fieldStripSet : List Char := ['.', ',', ';', ' ']

/-- The windowed uppercase-run fallback for `nome`
(doe_pb_core.py lines 168-183). -/
def fallbackNome (bflat : List Char) : List Char :=
  let nomes := caixaFindall (windowOf bflat)
  let cand := nomes.filterMap (fun nm =>
    let parts := wsSplit nm
    if parts.length < 2 then none
    else if parts.any (fun p => BAD_TOKENS.contains (String.mk (p.map pyUpperChar))) then none
    else some (pyStripWsL nm))
  match stableSortBy candKeyLe cand with
  | [] => []
  | best :: _ => best

/-- The phrase-anchored name, already stripped (lines 161-163). -/
def nomePosFrase (bflat : List Char) : List Char :=
  match searchPosFrase bflat with
  | some g => pyStripChars nomeStripSet g
  | none => []

/-- The role-anchored name, already stripped (lines 164-167). -/
def nomeServidor (bflat : List Char) : List Char :=
  match searchServidor bflat with
  | some g => pyStripChars nomeStripSet g
  | none => []

/-- The full name cascade of `_extract_records` (lines 160-183): phrase
anchor, then role anchor, then windowed fallback; first non-empty wins. -/
def extractNome (bflat : List Char) : List Char :=
  if nomePosFrase bflat ≠ [] then nomePosFrase bflat
  else if nomeServidor bflat ≠ [] then nomeServidor bflat
  else fallbackNome bflat

/-- One extracted record (the dict of doe_pb_core.py lines 190-197). -/
structure Registro where
  tipo_ato : String
  nome : String
  matricula : String
  processo : String
  pagina : Nat
  trecho : String
deriving DecidableEq, Repr

/-- The act classification of a collapsed block (lines 149-158). -/
def classifyTipo (bflat : String) : Option String :=
  let nb := nrm bflat
  if containsStr nb "conceder aposentadoria" then some "APOSENTADORIA"
  else if containsStr nb "conceder pensao" ||
          containsStr (pyLower bflat) "conceder pensão" then some "PENSAO"
  else if (containsStr nb "isencao de imposto de renda" ||
           containsStr (pyLower bflat) "isenção de imposto de renda") &&
          containsStr nb "indef" then some "ISENCAO_INDEFERIDA"
  else none

/-- Processing of one block of one page (lines 147-197): collapse, classify
(no record at all without a type), extract fields, truncate the excerpt. -/
def extractBlock (pageNo : Nat) (bloco : String) : Option Registro :=
  let bflat := collapse bloco
  match classifyTipo bflat with
  | none => none
  | some t => some
      { tipo_ato := t
        nome := String.mk (extractNome bflat.data)
        matricula := String.mk
          (match searchMatricula bflat.data with
           | some g => pyStripChars fieldStripSet g
           | none => [])
        processo := String.mk
          (match searchProcesso bflat.data with
           | some g => pyStripChars fieldStripSet g
           | none => [])
        pagina := pageNo
        trecho := String.mk (bflat.data.take 260) }

/-- Python `s.split(sep)` for a non-empty separator: cut at each leftmost
non-overlapping occurrence.  The fuel (initially the input length) only
makes the recursion structural; every step consumes at least one
character, so it never runs out. -/
def splitOnFuel (sep : List Char) : Nat → List Char → List Char → List (List Char)
  | _, acc, [] => [acc.reverse]
  | 0, acc, s => [acc.reverse ++ s]
  | f + 1, acc, c :: t =>
      if pfxCL sep (c :: t) then
        acc.reverse :: splitOnFuel sep f [] (t.drop (sep.length - 1))
      else splitOnFuel sep f (c :: acc) t

/-- Python `s.split(sep)` on strings. -/
def pySplitOn (s sep : String) : List String :=
  (splitOnFuel sep.data s.data.length [] s.data).map String.mk

/-- `[b for b in xs if b.strip()]`. -/
def keepBlocks (bs : List String) : List String :=
  bs.filter (fun b => b.data.any (fun c => !isPySpace c))

/-- Page segmentation (lines 144-146): blank-line blocks, re-segmented by
single newlines when fewer than three result. -/
def segmentBlocks (txt : String) : List String :=
  let rb := keepBlocks (pySplitOn txt "\n\n")
  if rb.length < 3 then keepBlocks (pySplitOn txt "\n") else rb

/-- Pages enumerated from `i`; empty page text is skipped (lines 140-143). -/
def extractPagesFrom : Nat → List String → List Registro
  | _, [] => []
  | i, txt :: rest =>
      (if txt = "" then [] else (segmentBlocks txt).filterMap (extractBlock i)) ++
        extractPagesFrom (i + 1) rest

/-- `_extract_records` (doe_pb_core.py lines 137-198), on the per-page texts
produced by the external PDF decoder; pages are numbered from 1. -/
def extractRecords (pages : List String) : List Registro := extractPagesFrom 1 pages

/-! ### The link resolver `_find_pdf_link_in_detail`

The rendered page is an explicit input (`DetailPage`); the HTTP layer is an
oracle `fetch : String → Option (String × List Nat)` returning the content
type and body bytes of `urllib.request.urlopen` (with the fixed headers and
the detail reference as referer), `none` standing for any raised exception.
`urljoin` is an explicit stdlib collaborator `join : String → String → String`. -/

/-- `p` is a trailing segment of `s`. -/
def sfxCL : List Char → List Char → Bool
  | p, s =>
      if s.length < p.length then false
      else pfxCL p (s.drop (s.length - p.length))

/-- `href.lower().endswith(".pdf")`. -/
def endsWithPdf (href : String) : Bool := sfxCL ".pdf".data (pyLower href).data

/-- The rendered detail page as seen through the browser session. -/
structure DetailPage where
  currentUrl : String
  anchorHrefs : List String
  iframeSrcs : List String
  embedSrcs : List String
  pageSource : String

/-- The first four bytes of every PDF file: `b"%PDF"`. -/
def pdfMagic : List Nat := [37, 80, 68, 70]

/-- `_download_pdf_bytes` (doe_pb_core.py lines 79-91): accept the body only
if it starts with the PDF magic or the response declares a PDF content
type; any exception yields `None`. -/
def downloadPdfBytes (fetch : String → Option (String × List Nat)) (url : String) :
    Option (List Nat) :=
  match fetch url with
  | none => none
  | some (ct, data) =>
      if data.take 4 = pdfMagic || containsStr ct "application/pdf" then some data
      else none

/-- The candidate loop: first URL whose download succeeds, with that URL. -/
def tryCandidates (fetch : String → Option (String × List Nat)) :
    List String → Option (List Nat × String)
  | [] => none
  | u :: rest =>
      match downloadPdfBytes fetch u with
      | some d => some (d, u)
      | none => tryCandidates fetch rest

/-- Deduplication by exact URL keeping first occurrences (the `seen` set of
lines 119-122). -/
def dedupKeepFirst (seen : List String) : List String → List String
  | [] => []
  | u :: t =>
      if seen.contains u then dedupKeepFirst seen t
      else u :: dedupKeepFirst (u :: seen) t

/-- The raw-markup scan regex of doe_pb_core.py line 128, exactly as
compiled from the raw string `r'href=["\\\']([^"\\\']+\\.pdf[^"\\\']*)["\\\']'`
with `re.I`: `href=` then a character of `["\\']`, capturing
`[^"\\']+` `\\` (a literal backslash) `.` (any character) `pdf` `[^"\\']*`,
then a character of `["\\']`.  Note the double-escaping: a literal
backslash and an arbitrary character are required before `pdf`. -/
def rawQuoteCls (c : Char) : Bool := c = '"' || c = '\\' || c = '\''

def rawHrefPre : Rx := Rx.seq (litCI "href=") (Rx.chr rawQuoteCls)

def rawHrefCap : Rx :=
  Rx.seq (Rx.plusC (fun c => !rawQuoteCls c))
    (Rx.seq (Rx.chr (cs1 '\\'))
      (Rx.seq (Rx.chr (fun c => !(c = '\n')))
        (Rx.seq (litCI "pdf") (Rx.starC (fun c => !rawQuoteCls c)))))

/-- `re.finditer` captures: non-overlapping matches, scanning left to
right, continuing after each match end (fuel = input length + 1; every
match consumes at least one character). -/
def finditerCaps (pre cap post : Rx) : Nat → List Char → List (List Char)
  | 0, _ => []
  | f + 1, s =>
      match matchCapRem pre cap post s with
      | some q =>
          q.1 :: (if q.2.length < s.length then finditerCaps pre cap post f q.2 else [])
      | none =>
          match s with
          | [] => []
          | _ :: t => finditerCaps pre cap post f t

/-- All captures of the line-128 scan over the page source. -/
def rawHrefCaptures (html : String) : List String :=
  (finditerCaps rawHrefPre rawHrefCap (Rx.chr rawQuoteCls)
    (html.data.length + 1) html.data).map String.mk

/-- Modelled from the spec: the raw-markup fallback as the specification
describes it — a scan of the page source for any `href` whose target ends
in `.pdf` (regex `href=["\']([^"\']+\.pdf[^"\']*)["\']`, case-insensitive),
which is what the structural pass may have missed.  This is the intended
behaviour of doe_pb_core.py line 128; the code's actual pattern is
`rawHrefCaptures` above. -/
def specQuoteCls (c : Char) : Bool := c = '"' || c = '\''

def specRawHrefCaptures (html : String) : List String :=
  (finditerCaps (Rx.seq (litCI "href=") (Rx.chr specQuoteCls))
    (Rx.seq (Rx.plusC (fun c => !specQuoteCls c))
      (Rx.seq (Rx.chr (cs1 '.'))
        (Rx.seq (litCI "pdf") (Rx.starC (fun c => !specQuoteCls c)))))
    (Rx.chr specQuoteCls)
    (html.data.length + 1) html.data).map String.mk

/-- The structural candidate discovery of `_find_pdf_link_in_detail`
(doe_pb_core.py lines 100-115): anchors, iframes/embeds, synthesized
download-suffix URL. -/
def discoveredCandidates (join : String → String → String) (page : DetailPage)
    (detailUrl : String) : List String :=
  ((page.anchorHrefs.filter
      (fun h => endsWithPdf h || containsStr h "@@download/file")).map
    (join page.currentUrl)) ++
  (((page.iframeSrcs ++ page.embedSrcs).filter
      (fun src => containsStr src ".pdf" || containsStr src "@@download/file")).map
    (join page.currentUrl)) ++
  (if endsWithPdf detailUrl && !containsStr detailUrl "/@@download/file" then
    [String.mk (stripEndChars ['/'] detailUrl.data) ++ "/@@download/file"]
   else [])

/-- `_find_pdf_link_in_detail` (doe_pb_core.py lines 93-134) after the
navigation steps: build candidates (falling back to the detail reference
itself when nothing was discovered), try them deduplicated in order, then
run the raw-markup scan, and finally report absence together with the
first candidate. -/
def findPdfLinkInDetail (join : String → String → String)
    (fetch : String → Option (String × List Nat))
    (page : DetailPage) (detailUrl : String) : Option (List Nat) × String :=
  let discovered := discoveredCandidates join page detailUrl
  let cands := if discovered = [] then [detailUrl] else discovered
  match tryCandidates fetch (dedupKeepFirst [] cands) with
  | some q => (some q.1, q.2)
  | none =>
      match tryCandidates fetch
        ((rawHrefCaptures page.pageSource).map (join page.currentUrl)) with
      | some q => (some q.1, q.2)
      | none => (none, match cands with | [] => detailUrl | c :: _ => c)

/-! ### The crawl controller `_historico_stream`

The browser is an oracle `listing : String → List Anchor` giving, for each
listing-page URL, the anchors found after navigation; the resolver is an
oracle `resolveF : String → Option (List String) × String` standing for
`_find_pdf_link_in_detail` composed with the external PDF decoder (the
byte stream is represented by its decoded per-page texts).  Console output
and PDF persistence are side effects with no bearing on the modelled
state. -/

structure Anchor where
  text : String
  href : String
deriving DecidableEq, Repr

/-- `BASE_URL` (doe_pb_core.py line 12). -/
def baseUrl : String := "https://auniao.pb.gov.br/doe/edicoes-recentes"

/-- `RE_DATE.search` (line 19) at one position: two digits, a dash or
slash separator, two digits, a separator, four digits; returns the
four-digit year group as a number. -/
def dateAt : List Char → Option Nat
  | d1 :: d2 :: s1 :: d3 :: d4 :: s2 :: y1 :: y2 :: y3 :: y4 :: _ =>
      if d1.isDigit && d2.isDigit && (s1 = '-' || s1 = '/') &&
         d3.isDigit && d4.isDigit && (s2 = '-' || s2 = '/') &&
         y1.isDigit && y2.isDigit && y3.isDigit && y4.isDigit then
        some ((y1.toNat - 48) * 1000 + (y2.toNat - 48) * 100 +
              (y3.toNat - 48) * 10 + (y4.toNat - 48))
      else none
  | _ => none

/-- `int(RE_DATE.search(txt).group(3))` if the date pattern occurs. -/
def reDateYear : List Char → Option Nat
  | [] => none
  | s@(_ :: t) =>
      match dateAt s with
      | some y => some y
      | none => reDateYear t

/-- One listing item: (href, stripped label text, parsed year). -/
abbrev Item := String × String × Option Nat

/-- `CUTOFF_YEAR_STOP` (doe_pb_core.py line 13). -/
def CUTOFF_YEAR_STOP : Nat := 2019

/-- `_iter_listing_page` (doe_pb_core.py lines 201-215) on the anchors of a
rendered listing page: keep gazette links, parse the year, latch the stop
flag and drop items at or below the cutoff. -/
def iterAnchors : List Anchor → Bool × List Item
  | [] => (false, [])
  | a :: rest =>
      let r := iterAnchors rest
      let txt := pyStripWs a.text
      if !(containsStr txt "Diário Oficial" && containsStr txt ".pdf") then r
      else
        match reDateYear txt.data with
        | some y =>
            if y ≤ CUTOFF_YEAR_STOP then (true, r.2)
            else (r.1, (a.href, txt, some y) :: r.2)
        | none => (r.1, (a.href, txt, none) :: r.2)

/-- One CSV row of the historical stream (lines 220, 236). -/
structure Row where
  data_link : String
  detail_url : String
  pdf_url : String
  reg : Registro
deriving DecidableEq, Repr

/-- The crawl state and observable trace of `_historico_stream`. -/
structure CrawlSt where
  seen : List String
  fetchedPages : List String
  processedRefs : List String
  rows : List Row
  saved : Nat
deriving Repr

/-- The per-item body of `_historico_stream` (lines 225-237 and 246-258):
skip seen or pre-2020 items, mark visited, resolve, extract and stream.
`processedRefs` records each reference on which resolution was attempted,
in order. -/
def processItems (resolveF : String → Option (List String) × String) :
    CrawlSt → List Item → CrawlSt
  | st, [] => st
  | st, (href, txt, year) :: rest =>
      if st.seen.contains href ||
         (match year with | some y => y < 2020 | none => false) then
        processItems resolveF st rest
      else
        let st1 := { st with seen := st.seen ++ [href],
                             processedRefs := st.processedRefs ++ [href] }
        match resolveF href with
        | (none, _) => processItems resolveF st1 rest
        | (some pages, pdfUrl) =>
            processItems resolveF
              { st1 with
                saved := st1.saved + 1,
                rows := st1.rows ++ (extractRecords pages).map
                  (fun r => { data_link := txt, detail_url := href,
                              pdf_url := pdfUrl, reg := r }) } rest

/-- `PAGE_STEP` pagination offsets `range(12, 20000, 12)` (line 242). -/
def pageStarts : List Nat := List.range' 12 1666 12

/-- The URL of the paginated listing page for offset `s` (line 243). -/
def startUrl (s : Nat) : String := baseUrl ++ "?b_start:int=" ++ toString s

/-- The pagination loop of `_historico_stream` (lines 241-259): fetch the
page, process its items, and stop after the first page whose scan latched
the stop flag. -/
def crawlGo (listing : String → List Anchor)
    (resolveF : String → Option (List String) × String) :
    CrawlSt → List Nat → CrawlSt
  | st, [] => st
  | st, s :: rest =>
      let url := startUrl s
      let scan := iterAnchors (listing url)
      let st1 := processItems resolveF
        { st with fetchedPages := st.fetchedPages ++ [url] } scan.2
      if scan.1 then st1 else crawlGo listing resolveF st1 rest

/-- `_historico_stream` (doe_pb_core.py lines 217-261): first the base
listing page, then pagination until the stop latch or the page ceiling. -/
def crawl (listing : String → List Anchor)
    (resolveF : String → Option (List String) × String) : CrawlSt :=
  let scan0 := iterAnchors (listing baseUrl)
  let st1 := processItems resolveF
    { seen := [], fetchedPages := [baseUrl], processedRefs := [], rows := [], saved := 0 }
    scan0.2
  if scan0.1 then st1 else crawlGo listing resolveF st1 pageStarts

/-- The listing pages in fetch order: the base page, then the paginated
offsets. -/
def listingPages : List String := baseUrl :: pageStarts.map startUrl

/-- The listing-page URL with index `k` in fetch order. -/
def pageUrlAt (k : Nat) : String := listingPages.getD k ""

/-! ### Concrete fixtures and auxiliary predicates used by the theorems -/

/-- The single-page text of the C1 end-to-end scenario, exactly as the
specification writes it. -/
def c1Text : String :=
  "RESOLVE CONCEDER APOSENTADORIA ... a JOSE DA SILVA, matrícula 12345, processo 2023.001.9"

/-- The C9 witness block: both name patterns match, with different
results. -/
def c9Block : String :=
  "CONCEDER APOSENTADORIA a MARIA JOSE FERREIRA, servidora ANTONIA CARLA BELTRANO, matricula 9"

/-- No two consecutive whitespace characters. -/
def noDoubleWs : List Char → Bool
  | [] => true
  | [_] => true
  | a :: b :: t => !(isPySpace a && isPySpace b) && noDoubleWs (b :: t)

/-- The page markup of the C3 failing input: an ordinary href ending in
`.pdf` that the structural pass did not see. -/
def c3Html : String := "<a href=\"/docs/edicao.pdf\">baixar</a>"

/-- A fetch oracle under which `/docs/edicao.pdf` would download as a
valid PDF, while every other URL fails. -/
def c3Fetch : String → Option (String × List Nat) :=
  fun u => if u = "/docs/edicao.pdf" then some ("application/pdf", [37, 80, 68, 70, 9]) else none

/-- The detail page showing `c3Html` with no structural candidates. -/
def c3Page : DetailPage :=
  { currentUrl := "http://cur/", anchorHrefs := ["index.html"],
    iframeSrcs := [], embedSrcs := [], pageSource := c3Html }

/-- The C5 witness anchor, labelled as in the specification's scenario. -/
def c5Anchor : Anchor := { text := "Diário Oficial 05-03-2018.pdf", href := "http://x/d1" }

/-- A listing oracle showing `c5Anchor` on the base page only. -/
def c5L : String → List Anchor := fun u => if u = baseUrl then [c5Anchor] else []

/-- A resolver oracle that always fails. -/
def c5Rf : String → Option (List String) × String := fun _ => (none, "")

/-- The dedup invariant of one crawl run: resolution is attempted at most
once per reference, and only for references already marked visited. -/
def crawlInv (st : CrawlSt) : Prop :=
  st.processedRefs.Nodup ∧ ∀ x ∈ st.processedRefs, x ∈ st.seen

/-! ## Supporting lemmas -/

theorem pfxCL_iff {p s : List Char} : pfxCL p s = true ↔ p <+: s := by
  induction p generalizing s with
  | nil => simp [pfxCL]
  | cons a as ih =>
    cases s with
    | nil => simp [pfxCL]
    | cons b bs => simp [pfxCL, List.cons_prefix_cons, ih]

theorem subCL_iff {p s : List Char} : subCL p s = true ↔ p <:+: s := by
  induction s with
  | nil =>
    cases p with
    | nil => simp [subCL, pfxCL]
    | cons a as => simp [subCL, pfxCL]
  | cons c t ih =>
    simp [subCL, List.infix_cons_iff, pfxCL_iff, ih]

theorem containsStr_iff {s p : String} : containsStr s p = true ↔ p.data <:+: s.data :=
  subCL_iff

theorem isInfixOfMap (f : Char → Char) {p s : List Char} (h : p <:+: s) :
    p.map f <:+: s.map f := by
  obtain ⟨t, u, rfl⟩ := h
  exact ⟨t.map f, u.map f, by simp⟩

/-- If an accented phrase occurs in the lower-cased text, its deaccented
form occurs in the normalized text. -/
theorem containsStr_lower_nrm {s : String} (p q : String)
    (hq : q.data = p.data.map deaccentChar)
    (h : containsStr (pyLower s) p = true) : containsStr (nrm s) q = true := by
  rw [containsStr_iff] at h ⊢
  rw [hq]
  have := isInfixOfMap deaccentChar h
  simpa [pyLower, nrm, List.map_map, Function.comp] using this

/-- Act classification fails when none of the code's normalized anchors is
present. -/
theorem classifyTipo_none (bflat : String)
    (h1 : containsStr (nrm bflat) "conceder aposentadoria" = false)
    (h2 : containsStr (nrm bflat) "conceder pensao" = false)
    (h3 : ¬(containsStr (nrm bflat) "isencao de imposto de renda" = true ∧
            containsStr (nrm bflat) "indef" = true)) :
    classifyTipo bflat = none := by
  have hp : containsStr (pyLower bflat) "conceder pensão" = false := by
    by_contra hc
    have hc' : containsStr (pyLower bflat) "conceder pensão" = true := by
      simpa using hc
    have := containsStr_lower_nrm (s := bflat) "conceder pensão" "conceder pensao"
      (by decide) hc'
    simp [this] at h2
  have hi : containsStr (pyLower bflat) "isenção de imposto de renda" = true →
      containsStr (nrm bflat) "isencao de imposto de renda" = true :=
    containsStr_lower_nrm (s := bflat) "isenção de imposto de renda"
      "isencao de imposto de renda" (by decide)
  simp only [classifyTipo]
  rw [h1, h2, hp]
  simp only [Bool.or_self, if_false, Bool.false_or]
  by_cases hd : containsStr (nrm bflat) "indef" = true
  · have h31 : containsStr (nrm bflat) "isencao de imposto de renda" = false := by
      cases hval : containsStr (nrm bflat) "isencao de imposto de renda" with
      | false => rfl
      | true => exact absurd ⟨hval, hd⟩ h3
    have h32 : containsStr (pyLower bflat) "isenção de imposto de renda" = false := by
      cases hval : containsStr (pyLower bflat) "isenção de imposto de renda" with
      | false => rfl
      | true => rw [hi hval] at h31; cases h31
    rw [h31, h32]
    simp
  · have hd' : containsStr (nrm bflat) "indef" = false := by
      cases hval : containsStr (nrm bflat) "indef" with
      | false => rfl
      | true => exact absurd hval hd
    rw [hd']
    simp

/-- Act classification succeeds on the retirement anchor. -/
theorem classifyTipo_apos (bflat : String)
    (h : containsStr (nrm bflat) "conceder aposentadoria" = true) :
    classifyTipo bflat = some "APOSENTADORIA" := by
  simp only [classifyTipo]
  rw [h]
  simp

end DoePB

namespace DoePB

/-- Destructuring a successful block extraction: the record's fields are
exactly the ones computed from the collapsed block. -/
theorem extractBlock_eq_some {i : Nat} {b : String} {r : Registro}
    (h : extractBlock i b = some r) :
    r = { tipo_ato := (classifyTipo (collapse b)).getD ""
          nome := String.mk (extractNome (collapse b).data)
          matricula := String.mk
            (match searchMatricula (collapse b).data with
             | some g => pyStripChars fieldStripSet g
             | none => [])
          processo := String.mk
            (match searchProcesso (collapse b).data with
             | some g => pyStripChars fieldStripSet g
             | none => [])
          pagina := i
          trecho := String.mk ((collapse b).data.take 260) } := by
  simp only [extractBlock] at h
  cases hcl : classifyTipo (collapse b) with
  | none => rw [hcl] at h; cases h
  | some t => rw [hcl] at h; injection h with h'; subst h'; simp [hcl]

end DoePB

namespace DoePB



set_option maxRecDepth 100000 in
/-- C1, counterexample: on the scenario page the extractor does return
exactly one RETIREMENT record on page 1 with caseNumber "2023.001.9", but
its name and registrationId are empty — not "JOSE DA SILVA" and "12345":
the phrase-anchored name pattern is blocked by the literal "..." before
the preposition, "JOSE DA SILVA" is discarded by the BAD_TOKENS stoplist
(it contains "DA"), and RE_MATRICULA's unaccented label "matricul" never
matches the accented "matrícula". -/
theorem C1_counterexample :
    ¬ ((extractRecords [c1Text]).map
        (fun r => (r.tipo_ato, r.nome, r.matricula, r.processo, r.pagina)) =
      [("APOSENTADORIA", "JOSE DA SILVA", "12345", "2023.001.9", 1)]) := by
  decide

set_option maxRecDepth 100000 in
/-- C1, amended: for the scenario page the extractor returns exactly one
record with actType RETIREMENT (APOSENTADORIA), empty name, empty
registrationId, caseNumber "2023.001.9", and pageNumber 1. -/
theorem C1_amended :
    (extractRecords [c1Text]).map
        (fun r => (r.tipo_ato, r.nome, r.matricula, r.processo, r.pagina)) =
      [("APOSENTADORIA", "", "", "2023.001.9", 1)] := by
  decide

end DoePB

namespace DoePB

set_option maxRecDepth 100000 in
/-- C2, counterexample: a block whose normalized form contains none of the
three anchors as the claim states them — in particular no "indeferi-" stem
— still produces a record, because the code only tests for the substring
"indef": "POR PRAZO INDEFINIDO" together with the tax-exemption phrase is
classified as TAX_EXEMPTION_DENIED. -/
theorem C2_counterexample :
    containsStr (nrm (collapse "CONCEDER ISENCAO DE IMPOSTO DE RENDA POR PRAZO INDEFINIDO"))
        "conceder aposentadoria" = false ∧
    containsStr (nrm (collapse "CONCEDER ISENCAO DE IMPOSTO DE RENDA POR PRAZO INDEFINIDO"))
        "conceder pensao" = false ∧
    containsStr (nrm (collapse "CONCEDER ISENCAO DE IMPOSTO DE RENDA POR PRAZO INDEFINIDO"))
        "indeferi" = false ∧
    extractBlock 1 "CONCEDER ISENCAO DE IMPOSTO DE RENDA POR PRAZO INDEFINIDO" ≠ none := by
  decide

/-- C2, amended: for every text block whose normalized form contains none
of "conceder aposentadoria", "conceder pensao", nor both "isencao de
imposto de renda" and the substring "indef" (the code's stem test), the
record extractor emits zero records from that block. -/
theorem C2_amended (i : Nat) (b : String)
    (h1 : containsStr (nrm (collapse b)) "conceder aposentadoria" = false)
    (h2 : containsStr (nrm (collapse b)) "conceder pensao" = false)
    (h3 : ¬(containsStr (nrm (collapse b)) "isencao de imposto de renda" = true ∧
            containsStr (nrm (collapse b)) "indef" = true)) :
    extractBlock i b = none := by
  simp only [extractBlock]
  rw [classifyTipo_none (collapse b) h1 h2 h3]

set_option maxRecDepth 100000 in
/-- Witness for C2_amended at a concrete non-act block. -/
theorem C2_amended_witness :
    containsStr (nrm (collapse "PORTARIA DE NOMEACAO DO SERVIDOR")) "conceder aposentadoria" = false ∧
    extractBlock 3 "PORTARIA DE NOMEACAO DO SERVIDOR" = none :=
  ⟨by decide,
   C2_amended 3 "PORTARIA DE NOMEACAO DO SERVIDOR" (by decide) (by decide) (by decide)⟩

/-- C8: every block whose normalized collapsed form contains the phrase
"conceder aposentadoria" yields a record, and that record is classified
RETIREMENT (APOSENTADORIA). -/
theorem C8_retirement_recall (i : Nat) (b : String)
    (h : containsStr (nrm (collapse b)) "conceder aposentadoria" = true) :
    ∃ r, extractBlock i b = some r ∧ r.tipo_ato = "APOSENTADORIA" := by
  have hcl := classifyTipo_apos (collapse b) h
  simp only [extractBlock, hcl]
  exact ⟨_, rfl, rfl⟩

set_option maxRecDepth 100000 in
/-- Witness for C8_retirement_recall at a concrete retirement block. -/
theorem C8_retirement_recall_witness :
    containsStr (nrm (collapse "RESOLVE CONCEDER APOSENTADORIA ao servidor JOAO BATISTA COSTA, matricula 10"))
        "conceder aposentadoria" = true ∧
    ∃ r, extractBlock 1 "RESOLVE CONCEDER APOSENTADORIA ao servidor JOAO BATISTA COSTA, matricula 10" = some r ∧
      r.tipo_ato = "APOSENTADORIA" :=
  ⟨by decide,
   C8_retirement_recall 1 "RESOLVE CONCEDER APOSENTADORIA ao servidor JOAO BATISTA COSTA, matricula 10" (by decide)⟩

/-- C9: the name cascade is a deterministic priority chain — whenever the
phrase-anchored pattern and the role-anchored pattern both produce a
non-empty (stripped) match on the collapsed block, the emitted record's
name is the phrase-anchored result. -/
theorem C9_name_priority (i : Nat) (b : String) (r : Registro) (g g2 : List Char)
    (hr : extractBlock i b = some r)
    (h1 : searchPosFrase (collapse b).data = some g)
    (h1s : pyStripChars nomeStripSet g ≠ [])
    (_h2 : searchServidor (collapse b).data = some g2)
    (_h2s : pyStripChars nomeStripSet g2 ≠ []) :
    r.nome = String.mk (pyStripChars nomeStripSet g) := by
  have hpf : nomePosFrase (collapse b).data = pyStripChars nomeStripSet g := by
    unfold nomePosFrase
    rw [h1]
  have hn : extractNome (collapse b).data = pyStripChars nomeStripSet g := by
    unfold extractNome
    rw [hpf]
    simp [h1s]
  rw [extractBlock_eq_some hr]
  simp [hn]

end DoePB

namespace DoePB



set_option maxRecDepth 400000 in
/-- Witness for C9_name_priority: on `c9Block` the phrase-anchored match is
"MARIA JOSE FERREIRA", the role-anchored match is "ANTONIA CARLA BELTRANO",
and the emitted record's name is the phrase-anchored one. -/
theorem C9_name_priority_witness :
    searchPosFrase (collapse c9Block).data = some "MARIA JOSE FERREIRA".data ∧
    searchServidor (collapse c9Block).data = some "ANTONIA CARLA BELTRANO".data ∧
    ({ tipo_ato := "APOSENTADORIA", nome := "MARIA JOSE FERREIRA", matricula := "9",
       processo := "", pagina := 1, trecho := c9Block } : Registro).nome =
      String.mk (pyStripChars nomeStripSet "MARIA JOSE FERREIRA".data) :=
  ⟨by decide, by decide,
   C9_name_priority 1 c9Block
     { tipo_ato := "APOSENTADORIA", nome := "MARIA JOSE FERREIRA", matricula := "9",
       processo := "", pagina := 1, trecho := c9Block }
     "MARIA JOSE FERREIRA".data "ANTONIA CARLA BELTRANO".data
     (by decide) (by decide) (by decide) (by decide) (by decide)⟩

end DoePB


namespace DoePB

/-- Both conjuncts of a true conjunction of booleans. -/
theorem bandMp {a b : Bool} (h : (a && b) = true) : a = true ∧ b = true := by
  simp at h
  exact ⟨h.1, h.2⟩



theorem noDoubleWs_tail {c : Char} {t : List Char}
    (h : noDoubleWs (c :: t) = true) : noDoubleWs t = true := by
  cases t with
  | nil => rfl
  | cons d t' => exact (bandMp h).2

theorem noDoubleWs_cons {c d : Char} {t : List Char}
    (hp : (!(isPySpace c && isPySpace d)) = true)
    (ht : noDoubleWs (d :: t) = true) : noDoubleWs (c :: d :: t) = true := by
  simp only [noDoubleWs, hp, ht, Bool.and_self]

/-- The first character of `squashAux true l` is never whitespace. -/
theorem squashAux_head_not_ws : ∀ (l : List Char) (d : Char) (r : List Char),
    squashAux true l = d :: r → isPySpace d = false := by
  intro l
  induction l with
  | nil => intro d r h; cases h
  | cons c t ih =>
    intro d r h
    cases hc : isPySpace c with
    | true =>
      simp only [squashAux, hc, if_true] at h
      exact ih d r h
    | false =>
      simp only [squashAux, hc, Bool.false_eq_true, if_false] at h
      injection h with h1 _
      rw [← h1]
      exact hc

theorem noDoubleWs_squashAux : ∀ (l : List Char) (f : Bool),
    noDoubleWs (squashAux f l) = true := by
  intro l
  induction l with
  | nil => intro f; rfl
  | cons c t ih =>
    intro f
    cases hc : isPySpace c with
    | true =>
      cases f with
      | true =>
        simp only [squashAux, hc, if_true]
        exact ih true
      | false =>
        simp only [squashAux, hc, if_true]
        cases hq : squashAux true t with
        | nil => rfl
        | cons d r =>
          have hd := squashAux_head_not_ws t d r hq
          have ht : noDoubleWs (d :: r) = true := by rw [← hq]; exact ih true
          exact noDoubleWs_cons (by simp [hd]) ht
    | false =>
      simp only [squashAux, hc, Bool.false_eq_true, if_false]
      cases hq : squashAux false t with
      | nil => rfl
      | cons d r =>
        have ht : noDoubleWs (d :: r) = true := by rw [← hq]; exact ih false
        exact noDoubleWs_cons (by simp [hc]) ht

theorem noDoubleWs_dropWhile (p : Char → Bool) : ∀ {l : List Char},
    noDoubleWs l = true → noDoubleWs (l.dropWhile p) = true := by
  intro l
  induction l with
  | nil => intro h; exact h
  | cons c t ih =>
    intro h
    cases hp : p c with
    | true =>
      rw [List.dropWhile_cons_of_pos hp]
      exact ih (noDoubleWs_tail h)
    | false =>
      rw [List.dropWhile_cons_of_neg (by simp [hp])]
      exact h

/-- `stripEndWs` keeps the head of a non-empty result. -/
theorem stripEndWs_head : ∀ {t : List Char} {d : Char} {r : List Char},
    stripEndWs t = d :: r → ∃ t₂, t = d :: t₂ := by
  intro t d r h
  cases t with
  | nil => cases h
  | cons e t₂ =>
    simp only [stripEndWs] at h
    split at h
    · cases h
    · injection h with h1 _
      exact ⟨t₂, by rw [h1]⟩

theorem noDoubleWs_stripEndWs : ∀ {l : List Char},
    noDoubleWs l = true → noDoubleWs (stripEndWs l) = true := by
  intro l
  induction l with
  | nil => intro h; exact h
  | cons c t ih =>
    intro h
    simp only [stripEndWs]
    split
    · rfl
    · cases hr : stripEndWs t with
      | nil => rfl
      | cons d r =>
        obtain ⟨t₂, ht⟩ := stripEndWs_head hr
        have hpair : (!(isPySpace c && isPySpace d)) = true := by
          rw [ht] at h
          exact (bandMp h).1
        have htl : noDoubleWs (d :: r) = true := by
          rw [← hr]
          exact ih (noDoubleWs_tail h)
        exact noDoubleWs_cons hpair htl

theorem noDoubleWs_take : ∀ (l : List Char) (n : Nat),
    noDoubleWs l = true → noDoubleWs (l.take n) = true := by
  intro l
  induction l with
  | nil => intro n _; simp [List.take_nil, noDoubleWs]
  | cons c t ih =>
    intro n h
    cases n with
    | zero => rfl
    | succ m =>
      rw [List.take_succ_cons]
      cases t with
      | nil => simp [noDoubleWs]
      | cons d t₂ =>
        cases m with
        | zero => rfl
        | succ m' =>
          have htl : noDoubleWs ((d :: t₂).take (m' + 1)) = true :=
            ih (m' + 1) (noDoubleWs_tail h)
          rw [List.take_succ_cons] at htl ⊢
          exact noDoubleWs_cons (bandMp h).1 htl

/-- Characters surviving `squashAux` are the space it emits or non-space
input characters. -/
theorem mem_squashAux_ws : ∀ (l : List Char) (f : Bool) (c : Char),
    c ∈ squashAux f l → isPySpace c = true → c = ' ' := by
  intro l
  induction l with
  | nil => intro f c hc _; cases hc
  | cons a t ih =>
    intro f c hc hw
    cases ha : isPySpace a with
    | true =>
      cases f with
      | true =>
        simp only [squashAux, ha, if_true] at hc
        exact ih true c hc hw
      | false =>
        simp only [squashAux, ha, if_true] at hc
        cases List.mem_cons.mp hc with
        | inl h => exact h
        | inr h => exact ih true c h hw
    | false =>
      simp only [squashAux, ha, Bool.false_eq_true, if_false] at hc
      cases List.mem_cons.mp hc with
      | inl h => rw [h] at hw; rw [hw] at ha; cases ha
      | inr h => exact ih false c h hw

theorem mem_stripEndWs : ∀ {l : List Char} {c : Char}, c ∈ stripEndWs l → c ∈ l := by
  intro l
  induction l with
  | nil => intro c h; exact h
  | cons a t ih =>
    intro c h
    simp only [stripEndWs] at h
    split at h
    · cases h
    · cases List.mem_cons.mp h with
      | inl h1 => rw [h1]; exact List.mem_cons_self _ _
      | inr h1 => exact List.mem_cons_of_mem _ (ih h1)

/-- Every whitespace character of a collapsed block is the single space. -/
theorem mem_collapseL_ws {l : List Char} {c : Char}
    (hc : c ∈ collapseL l) (hw : isPySpace c = true) : c = ' ' := by
  have h1 : c ∈ (squashAux false l).dropWhile isPySpace := mem_stripEndWs hc
  have h2 : c ∈ squashAux false l := (List.dropWhile_sublist _).mem h1
  exact mem_squashAux_ws l false c h2 hw

theorem noDoubleWs_collapseL (l : List Char) : noDoubleWs (collapseL l) = true := by
  unfold collapseL pyStripWsL
  exact noDoubleWs_stripEndWs (noDoubleWs_dropWhile _ (noDoubleWs_squashAux l false))

end DoePB

namespace DoePB

theorem extractBlock_pagina {i : Nat} {b : String} {r : Registro}
    (h : extractBlock i b = some r) : r.pagina = i := by
  rw [extractBlock_eq_some h]

theorem extractBlock_trecho {i : Nat} {b : String} {r : Registro}
    (h : extractBlock i b = some r) :
    r.trecho = String.mk ((collapse b).data.take 260) := by
  rw [extractBlock_eq_some h]

/-- Every record of `extractPagesFrom i pages` has page number at least `i`
and an excerpt that is a 260-character prefix of a collapsed block. -/
theorem mem_extractPagesFrom : ∀ (pages : List String) (i : Nat) (r : Registro),
    r ∈ extractPagesFrom i pages →
    i ≤ r.pagina ∧ ∃ b, r.trecho = String.mk ((collapse b).data.take 260) := by
  intro pages
  induction pages with
  | nil => intro i r h; cases h
  | cons txt rest ih =>
    intro i r h
    simp only [extractPagesFrom] at h
    rcases List.mem_append.mp h with h1 | h2
    · have hr : r ∈ (segmentBlocks txt).filterMap (extractBlock i) := by
        by_cases he : txt = ""
        · rw [if_pos he] at h1; cases h1
        · rwa [if_neg he] at h1
      obtain ⟨b, _, hb⟩ := List.mem_filterMap.mp hr
      exact ⟨le_of_eq (extractBlock_pagina hb).symm, b, extractBlock_trecho hb⟩
    · obtain ⟨hle, hb⟩ := ih (i + 1) r h2
      exact ⟨le_trans (Nat.le_succ i) hle, hb⟩

theorem pairwiseLeOfAllEq {l : List Nat} (i : Nat) (h : ∀ x ∈ l, x = i) :
    l.Pairwise (· ≤ ·) := by
  induction l with
  | nil => exact List.Pairwise.nil
  | cons a t ih =>
    constructor
    · intro b hb
      rw [h a (List.mem_cons_self _ _), h b (List.mem_cons_of_mem _ hb)]
    · exact ih (fun x hx => h x (List.mem_cons_of_mem _ hx))

/-- Page numbers appear in nondecreasing order. -/
theorem pairwise_extractPagesFrom : ∀ (pages : List String) (i : Nat),
    ((extractPagesFrom i pages).map Registro.pagina).Pairwise (· ≤ ·) := by
  intro pages
  induction pages with
  | nil => intro i; exact List.Pairwise.nil
  | cons txt rest ih =>
    intro i
    simp only [extractPagesFrom, List.map_append]
    rw [List.pairwise_append]
    refine ⟨?_, ih (i + 1), ?_⟩
    · apply pairwiseLeOfAllEq i
      intro x hx
      obtain ⟨r, hr, hx⟩ := List.mem_map.mp hx
      have hr' : r ∈ (segmentBlocks txt).filterMap (extractBlock i) := by
        by_cases he : txt = ""
        · rw [if_pos he] at hr; cases hr
        · rwa [if_neg he] at hr
      obtain ⟨b, _, hb⟩ := List.mem_filterMap.mp hr'
      rw [← hx]
      exact extractBlock_pagina hb
    · intro x hx y hy
      obtain ⟨r, hr, hx⟩ := List.mem_map.mp hx
      obtain ⟨q, hq, hy⟩ := List.mem_map.mp hy
      have hr' : r ∈ (segmentBlocks txt).filterMap (extractBlock i) := by
        by_cases he : txt = ""
        · rw [if_pos he] at hr; cases hr
        · rwa [if_neg he] at hr
      obtain ⟨b, _, hb⟩ := List.mem_filterMap.mp hr'
      have h1 : x = i := by rw [← hx]; exact extractBlock_pagina hb
      have h2 : i + 1 ≤ y := by
        rw [← hy]
        exact (mem_extractPagesFrom rest (i + 1) q hq).1
      rw [h1]
      exact le_trans (Nat.le_succ i) h2

/-- C10: for every (decoded) PDF input, the record sequence is ordered by
nondecreasing page number, every page number is at least 1, and every
excerpt is whitespace-collapsed — it contains no newline and no run of two
or more consecutive whitespace characters. -/
theorem C10_output_invariants (pages : List String) :
    ((extractRecords pages).map Registro.pagina).Pairwise (· ≤ ·) ∧
    ∀ r ∈ extractRecords pages,
      1 ≤ r.pagina ∧ noDoubleWs r.trecho.data = true ∧ ∀ c ∈ r.trecho.data, c ≠ '\n' := by
  constructor
  · exact pairwise_extractPagesFrom pages 1
  · intro r hr
    obtain ⟨h1, b, hb⟩ := mem_extractPagesFrom pages 1 r hr
    refine ⟨h1, ?_, ?_⟩
    · rw [hb]
      exact noDoubleWs_take _ 260 (noDoubleWs_collapseL b.data)
    · intro c hc hneq
      rw [hb] at hc
      have hc' : c ∈ collapseL b.data := (List.take_sublist _ _).mem hc
      have : c = ' ' := mem_collapseL_ws hc' (by rw [hneq]; rfl)
      rw [hneq] at this
      cases this

end DoePB

namespace DoePB

/-- If no URL downloads successfully, the candidate loop fails. -/
theorem tryCandidates_none {fetch : String → Option (String × List Nat)}
    (h : ∀ u, downloadPdfBytes fetch u = none) :
    ∀ l, tryCandidates fetch l = none := by
  intro l
  induction l with
  | nil => rfl
  | cons u rest ih =>
    simp only [tryCandidates, h u]
    exact ih

/-- A successful candidate loop returns a URL whose download succeeded with
exactly the returned bytes. -/
theorem tryCandidates_some {fetch : String → Option (String × List Nat)}
    {l : List String} {d : List Nat} {u : String}
    (h : tryCandidates fetch l = some (d, u)) :
    downloadPdfBytes fetch u = some d := by
  induction l with
  | nil => cases h
  | cons v rest ih =>
    simp only [tryCandidates] at h
    cases hv : downloadPdfBytes fetch v with
    | none => rw [hv] at h; exact ih h
    | some dv =>
      rw [hv] at h
      injection h with h1
      have h2 : dv = d := congrArg Prod.fst h1
      have h3 : v = u := congrArg Prod.snd h1
      rw [← h3, hv, h2]

/-- C4: when no discovered candidate URL yields a successful PDF fetch,
the link resolver returns an absent byte result paired with the
first-discovered candidate URL, or the original detail reference when
nothing was discovered; the resolver is a total function of its inputs, so
total resolution failure is reported as absence, never as an exception. -/
theorem C4_failure_is_absence (join : String → String → String)
    (fetch : String → Option (String × List Nat))
    (page : DetailPage) (detailUrl : String)
    (h : ∀ u, downloadPdfBytes fetch u = none) :
    findPdfLinkInDetail join fetch page detailUrl =
      (none, (discoveredCandidates join page detailUrl).headD detailUrl) := by
  simp only [findPdfLinkInDetail, tryCandidates_none h]
  cases hd : discoveredCandidates join page detailUrl with
  | nil => simp [hd]
  | cons c cs => simp [hd]

/-- Witness for C4 at a concrete page whose fetches all fail. -/
theorem C4_failure_is_absence_witness :
    findPdfLinkInDetail (fun _ h => h) (fun _ => none)
        { currentUrl := "http://cur/", anchorHrefs := ["a.pdf", "x.html"],
          iframeSrcs := [], embedSrcs := [], pageSource := "<p>vazio</p>" }
        "http://det" =
      (none, (discoveredCandidates (fun _ h => h)
        { currentUrl := "http://cur/", anchorHrefs := ["a.pdf", "x.html"],
          iframeSrcs := [], embedSrcs := [], pageSource := "<p>vazio</p>" }
        "http://det").headD "http://det") :=
  C4_failure_is_absence (fun _ h => h) (fun _ => none)
    { currentUrl := "http://cur/", anchorHrefs := ["a.pdf", "x.html"],
      iframeSrcs := [], embedSrcs := [], pageSource := "<p>vazio</p>" }
    "http://det" (fun _ => rfl)

/-- C7: the link resolver never returns a byte result unless the fetched
response at the returned URL had a body starting with the `%PDF` magic or
declared a PDF content type (hence a fortiori for non-empty results). -/
theorem C7_pdf_validation (join : String → String → String)
    (fetch : String → Option (String × List Nat))
    (page : DetailPage) (detailUrl : String) (d : List Nat) (u : String)
    (h : findPdfLinkInDetail join fetch page detailUrl = (some d, u))
    (_hne : d ≠ []) :
    ∃ ct, fetch u = some (ct, d) ∧
      (d.take 4 = pdfMagic ∨ containsStr ct "application/pdf" = true) := by
  have hd : downloadPdfBytes fetch u = some d := by
    simp only [findPdfLinkInDetail] at h
    cases h1 : tryCandidates fetch
        (dedupKeepFirst []
          (if discoveredCandidates join page detailUrl = [] then [detailUrl]
           else discoveredCandidates join page detailUrl)) with
    | some q =>
      rw [h1] at h
      injection h with ha hb
      injection ha with ha
      have hq : q = (d, u) := Prod.ext ha hb
      rw [hq] at h1
      exact tryCandidates_some h1
    | none =>
      rw [h1] at h
      cases h2 : tryCandidates fetch
          ((rawHrefCaptures page.pageSource).map (join page.currentUrl)) with
      | some q =>
        rw [h2] at h
        injection h with ha hb
        injection ha with ha
        have hq : q = (d, u) := Prod.ext ha hb
        rw [hq] at h2
        exact tryCandidates_some h2
      | none =>
        rw [h2] at h
        injection h with ha _
        cases ha
  simp only [downloadPdfBytes] at hd
  cases hf : fetch u with
  | none => rw [hf] at hd; simp at hd
  | some p =>
    obtain ⟨ct, body⟩ := p
    rw [hf] at hd
    simp only at hd
    split at hd
    · injection hd with hd
      refine ⟨ct, by rw [hd], ?_⟩
      rw [← hd]
      rename_i hcond
      have hcond' : List.take 4 body = pdfMagic ∨ containsStr ct "application/pdf" = true := by
        simpa [Bool.or_eq_true, decide_eq_true_eq] using hcond
      exact hcond'
    · cases hd

/-- Witness for C7 at a concrete fetch returning a PDF-magic body. -/
theorem C7_pdf_validation_witness :
    ∃ ct, (fun u => if u = "a.pdf" then some ("text/html", [37, 80, 68, 70, 9]) else none) "a.pdf" =
        some (ct, [37, 80, 68, 70, 9]) ∧
      (([37, 80, 68, 70, 9] : List Nat).take 4 = pdfMagic ∨
        containsStr ct "application/pdf" = true) :=
  C7_pdf_validation (fun _ h => h)
    (fun u => if u = "a.pdf" then some ("text/html", [37, 80, 68, 70, 9]) else none)
    { currentUrl := "http://cur/", anchorHrefs := ["a.pdf"],
      iframeSrcs := [], embedSrcs := [], pageSource := "" }
    "http://det" [37, 80, 68, 70, 9] "a.pdf" (by decide) (by decide)

end DoePB

namespace DoePB



set_option maxRecDepth 400000 in
/-- C3: the raw-markup fallback scan is broken by a double-escaped pattern.
The compiled regex requires a literal backslash and an arbitrary character
immediately before "pdf" inside the href, so it finds nothing in markup
containing an ordinary href ending in ".pdf" — while the scan the
specification describes (`specRawHrefCaptures`, modelled from the spec)
finds it; consequently the resolver returns absence even under a fetch
oracle that would happily serve that URL as a PDF. -/
theorem C3_raw_scan_bug :
    rawHrefCaptures c3Html = [] ∧
    specRawHrefCaptures c3Html = ["/docs/edicao.pdf"] ∧
    downloadPdfBytes c3Fetch "/docs/edicao.pdf" = some [37, 80, 68, 70, 9] ∧
    findPdfLinkInDetail (fun _ h => h) c3Fetch c3Page "http://det" = (none, "http://det") := by
  refine ⟨by decide, by decide, by decide, by decide⟩

end DoePB

namespace DoePB

/-- The stop flag only ever latches: adding anchors cannot clear it. -/
theorem iterAnchors_fst_mono (b : Anchor) (t : List Anchor)
    (h : (iterAnchors t).1 = true) : (iterAnchors (b :: t)).1 = true := by
  simp only [iterAnchors]
  split
  · exact h
  · split
    · split
      · rfl
      · exact h
    · exact h

/-- A gazette anchor whose parsed year is at or below the cutoff latches
the stop flag of its listing page. -/
theorem iterAnchors_stop : ∀ (l : List Anchor) (a : Anchor) (y : Nat),
    a ∈ l →
    containsStr (pyStripWs a.text) "Diário Oficial" = true →
    containsStr (pyStripWs a.text) ".pdf" = true →
    reDateYear (pyStripWs a.text).data = some y →
    y ≤ 2019 →
    (iterAnchors l).1 = true := by
  intro l
  induction l with
  | nil => intro a y ha; cases ha
  | cons b t ih =>
    intro a y ha hg hp hy hc
    rcases List.mem_cons.mp ha with rfl | hm
    · have hc' : y ≤ CUTOFF_YEAR_STOP := hc
      simp only [iterAnchors, hg, hp, Bool.and_self, Bool.not_true,
        Bool.false_eq_true, if_false, hy]
      rw [if_pos hc']
    · exact iterAnchors_fst_mono b t (ih a y hm hg hp hy hc)

/-- Listing items carry only years strictly above the cutoff (or none):
cutoff anchors are excluded from the returned items. -/
theorem iterAnchors_year_bound : ∀ (l : List Anchor) (href txt : String) (y : Nat),
    (href, txt, some y) ∈ (iterAnchors l).2 → 2019 < y := by
  intro l
  induction l with
  | nil => intro href txt y h; cases h
  | cons b t ih =>
    intro href txt y h
    simp only [iterAnchors] at h
    split at h
    · exact ih href txt y h
    · split at h
      next y2 hy2 =>
        split at h
        · exact ih href txt y h
        next hle =>
          rcases List.mem_cons.mp h with he | hm
          · have h3 : (some y : Option Nat) = some y2 :=
              congrArg (fun p => p.2.2) he
            injection h3 with h4
            unfold CUTOFF_YEAR_STOP at hle
            omega
          · exact ih href txt y hm
      next hy2 =>
        rcases List.mem_cons.mp h with he | hm
        · have h3 : (some y : Option Nat) = none :=
            congrArg (fun p => p.2.2) he
          cases h3
        · exact ih href txt y hm

/-- Item processing never fetches listing pages. -/
theorem processItems_fetched (rf : String → Option (List String) × String) :
    ∀ (items : List Item) (st : CrawlSt),
      (processItems rf st items).fetchedPages = st.fetchedPages := by
  intro items
  induction items with
  | nil => intro st; rfl
  | cons it rest ih =>
    intro st
    obtain ⟨href, txt, year⟩ := it
    simp only [processItems]
    split
    · exact ih st
    · rcases hq : rf href with ⟨ob, url⟩
      cases ob with
      | none => simp only [hq]; exact ih _
      | some pages => simp only [hq]; exact ih _

/-- The pagination loop stops fetching right after the first page whose
scan latched the stop flag. -/
theorem crawlGo_stops (L : String → List Anchor)
    (rf : String → Option (List String) × String) :
    ∀ (starts : List Nat) (n : Nat) (st : CrawlSt),
      n < starts.length →
      (∀ i, i < n → (iterAnchors (L (startUrl (starts.getD i 0)))).1 = false) →
      (iterAnchors (L (startUrl (starts.getD n 0)))).1 = true →
      (crawlGo L rf st starts).fetchedPages =
        st.fetchedPages ++ (starts.take (n + 1)).map startUrl := by
  intro starts
  induction starts with
  | nil => intro n st hn; cases hn
  | cons s rest ih =>
    intro n st hn hpre hstop
    simp only [crawlGo]
    cases n with
    | zero =>
      have hs : (iterAnchors (L (startUrl s))).1 = true := hstop
      rw [hs]
      simp only [if_true, processItems_fetched]
      simp
    | succ m =>
      have h0 : (iterAnchors (L (startUrl s))).1 = false := hpre 0 (Nat.succ_pos m)
      rw [h0]
      simp only [Bool.false_eq_true, if_false]
      have hrec := ih m
        (processItems rf { st with fetchedPages := st.fetchedPages ++ [startUrl s] }
          (iterAnchors (L (startUrl s))).2)
        (Nat.lt_of_succ_lt_succ hn)
        (fun i hi => hpre (i + 1) (Nat.succ_lt_succ hi))
        hstop
      rw [hrec, processItems_fetched]
      simp [List.take_succ_cons]

end DoePB

namespace DoePB

theorem pageStarts_length : pageStarts.length = 1666 := by
  simp [pageStarts]

theorem pageUrlAt_zero : pageUrlAt 0 = baseUrl := rfl

theorem pageUrlAt_succ (i : Nat) (hi : i < 1666) :
    pageUrlAt (i + 1) = startUrl (pageStarts.getD i 0) := by
  have hi' : i < pageStarts.length := by rw [pageStarts_length]; exact hi
  simp only [pageUrlAt, listingPages, List.getD_cons_succ]
  rw [List.getD_eq_getElem?_getD, List.getElem?_map,
      List.getElem?_eq_getElem hi']
  rw [List.getD_eq_getElem?_getD, List.getElem?_eq_getElem hi']
  rfl

/-- C5: once the listing page with fetch index `k` contains a gazette item
whose parsed year is at or below 2019 (and no earlier page latched), the
page's stop flag is set, that item is excluded from the returned items
(hence from resolution and extraction), and the crawl fetches exactly the
listing pages up to and including page `k` — no further listing page is
fetched after the current page's remaining items are processed. -/
theorem C5_cutoff_latch (L : String → List Anchor)
    (rf : String → Option (List String) × String) (k : Nat) (a : Anchor) (y : Nat)
    (hk : k < 1667)
    (ha : a ∈ L (pageUrlAt k))
    (hg : containsStr (pyStripWs a.text) "Diário Oficial" = true)
    (hp : containsStr (pyStripWs a.text) ".pdf" = true)
    (hy : reDateYear (pyStripWs a.text).data = some y)
    (hc : y ≤ 2019)
    (hpre : ∀ i, i < k → (iterAnchors (L (pageUrlAt i))).1 = false) :
    (iterAnchors (L (pageUrlAt k))).1 = true ∧
    (a.href, pyStripWs a.text, some y) ∉ (iterAnchors (L (pageUrlAt k))).2 ∧
    (crawl L rf).fetchedPages = listingPages.take (k + 1) := by
  have hstop : (iterAnchors (L (pageUrlAt k))).1 = true :=
    iterAnchors_stop (L (pageUrlAt k)) a y ha hg hp hy hc
  refine ⟨hstop, ?_, ?_⟩
  · intro hmem
    have := iterAnchors_year_bound (L (pageUrlAt k)) a.href (pyStripWs a.text) y hmem
    omega
  · cases k with
    | zero =>
      rw [pageUrlAt_zero] at hstop
      simp only [crawl, hstop, if_true, processItems_fetched]
      simp [listingPages]
    | succ m =>
      have hm : m < 1666 := by omega
      have h0 : (iterAnchors (L baseUrl)).1 = false := by
        have := hpre 0 (Nat.succ_pos m)
        rwa [pageUrlAt_zero] at this
      rw [pageUrlAt_succ m hm] at hstop
      have hpre' : ∀ i, i < m →
          (iterAnchors (L (startUrl (pageStarts.getD i 0)))).1 = false := by
        intro i hi
        have := hpre (i + 1) (by omega)
        rwa [pageUrlAt_succ i (by omega)] at this
      simp only [crawl, h0, Bool.false_eq_true, if_false]
      rw [crawlGo_stops L rf pageStarts m _
            (by rw [pageStarts_length]; exact hm) hpre' hstop]
      rw [processItems_fetched]
      simp only [listingPages, List.take_succ_cons]
      rw [← List.map_take]
      rfl

end DoePB

namespace DoePB



/-- Witness for C5_cutoff_latch: the item labelled
"Diário Oficial 05-03-2018.pdf" parses to year 2018, latches the stop flag
on page 0, is excluded from the items, and the crawl fetches only the base
page. -/
theorem C5_cutoff_latch_witness :
    (iterAnchors (c5L (pageUrlAt 0))).1 = true ∧
    (c5Anchor.href, pyStripWs c5Anchor.text, some 2018) ∉ (iterAnchors (c5L (pageUrlAt 0))).2 ∧
    (crawl c5L c5Rf).fetchedPages = listingPages.take 1 :=
  C5_cutoff_latch c5L c5Rf 0 c5Anchor 2018 (by decide) (by decide) (by decide)
    (by decide) (by decide) (by decide) (fun i hi => absurd hi (Nat.not_lt_zero i))



theorem processItems_inv (rf : String → Option (List String) × String) :
    ∀ (items : List Item) (st : CrawlSt),
      crawlInv st → crawlInv (processItems rf st items) := by
  intro items
  induction items with
  | nil => intro st h; exact h
  | cons it rest ih =>
    intro st h
    obtain ⟨href, txt, year⟩ := it
    simp only [processItems]
    split
    · exact ih st h
    next hskip =>
      have hcont : st.seen.contains href = false := by
        cases hv : st.seen.contains href with
        | false => rfl
        | true => exact absurd (by rw [hv]; simp) hskip
      have hnotseen : href ∉ st.seen := by
        intro hmem
        simp at hcont
        exact hcont hmem
      have hnotproc : href ∉ st.processedRefs := fun hm => hnotseen (h.2 href hm)
      have h1 : crawlInv { st with seen := st.seen ++ [href],
                                   processedRefs := st.processedRefs ++ [href] } := by
        constructor
        · rw [List.nodup_append]
          exact ⟨h.1, List.nodup_singleton href,
                 fun x hx hx1 => hnotproc (by rwa [List.mem_singleton.mp hx1] at hx)⟩
        · intro x hx
          rcases List.mem_append.mp hx with hx | hx
          · exact List.mem_append_left _ (h.2 x hx)
          · exact List.mem_append_right _ hx
      rcases hq : rf href with ⟨ob, url⟩
      cases ob with
      | none => simp only [hq]; exact ih _ h1
      | some pages => simp only [hq]; exact ih _ h1

theorem crawlGo_inv (L : String → List Anchor)
    (rf : String → Option (List String) × String) :
    ∀ (starts : List Nat) (st : CrawlSt),
      crawlInv st → crawlInv (crawlGo L rf st starts) := by
  intro starts
  induction starts with
  | nil => intro st h; exact h
  | cons s rest ih =>
    intro st h
    simp only [crawlGo]
    have h1 : crawlInv (processItems rf
        { st with fetchedPages := st.fetchedPages ++ [startUrl s] }
        (iterAnchors (L (startUrl s))).2) :=
      processItems_inv rf _ _ ⟨h.1, h.2⟩
    split
    · exact h1
    · exact ih _ h1

/-- C6: within one historical crawl run, resolution is attempted at most
once per item reference — the processed-reference trace has no duplicates,
even when a reference reappears on a later listing page — and every
processed reference is in the visited set. -/
theorem C6_visited_dedup (L : String → List Anchor)
    (rf : String → Option (List String) × String) :
    (crawl L rf).processedRefs.Nodup ∧
    ∀ x ∈ (crawl L rf).processedRefs, x ∈ (crawl L rf).seen := by
  have h0 : crawlInv { seen := [], fetchedPages := [baseUrl],
                       processedRefs := [], rows := [], saved := 0 } :=
    ⟨List.nodup_nil, fun x hx => absurd hx (List.not_mem_nil x)⟩
  have h1 := processItems_inv rf (iterAnchors (L baseUrl)).2 _ h0
  simp only [crawl]
  split
  · exact h1
  · exact crawlGo_inv L rf pageStarts _ h1

end DoePB
